import Mathlib

/-!
Verification development for the legal-text simplification and readability
pipeline of `src/backend/utils/simplifyLegalText.js`.

The JavaScript functions are shallowly embedded over `List Char`:
strings are lists of characters, the regex operations used by the source
(global case-insensitive literal replacement, word-boundary replacement,
splitting on character-class runs, the one passive-voice capture pattern)
are modelled by explicit structurally recursive scans that mirror the JS
regex semantics, and JS numbers are modelled by `ℚ` with `Math.round`
as `fun q => (q + 1/2).floor`.
-/

set_option maxRecDepth 20000

abbrev Str := List Char

/-- JS case canonicalization for the characters occurring in the tables:
ASCII letters fold to lower case, and the only non-ASCII letter used by a
pattern ('à' in "vis-à-vis") folds from 'À'. -/
def foldChar (c : Char) : Char :=
  if c = 'À' then 'à' else c.toLower

/-- JS regex word character (the `\w` class without the `u` flag):
ASCII letters, digits and underscore. -/
def isWordChar (c : Char) : Bool :=
  c.isAlpha || c.isDigit || c == '_'

/-- JS regex whitespace (`\s`), restricted to the ASCII whitespace
characters that can occur here. -/
def isSpaceJS (c : Char) : Bool :=
  c == ' ' || c == '\t' || c == '\n' || c == '\r' || c == '\x0b' || c == '\x0c'

/-- Sentence delimiters of the `[.!?]` class. -/
def isDelim (c : Char) : Bool :=
  c == '.' || c == '!' || c == '?'

/-- Case-insensitive "s starts with pat" (JS literal matching under the i
flag). -/
def swCI : Str → Str → Bool
  | [], _ => true
  | _ :: _, [] => false
  | p :: ps, c :: cs => (foldChar p == foldChar c) && swCI ps cs

/-- Case-sensitive "s starts with pat" (JS `includes` / `split` matching). -/
def swE : Str → Str → Bool
  | [], _ => true
  | _ :: _, [] => false
  | p :: ps, c :: cs => (p == c) && swE ps cs

/-- Some position of s matches pat case-insensitively. -/
def containsCI (pat : Str) : Str → Bool
  | [] => swCI pat []
  | c :: rest => swCI pat (c :: rest) || containsCI pat rest

/-- Some position of s matches pat exactly (JS `String.includes`). -/
def containsStr (pat : Str) : Str → Bool
  | [] => swE pat []
  | c :: rest => swE pat (c :: rest) || containsStr pat rest

/-- After-match side of the `\b` assertion for a pattern ending in a word
character: the next character (if any) is not a word character. -/
def afterOk : Str → Bool
  | [] => true
  | c :: _ => !(isWordChar c)

/-- One position of the word-boundary scan: pat matches here
case-insensitively, the previous character was not a word character, and
the character after the match is not a word character.  (All terminology
keys start and end with a word character, so `\b` reduces to exactly
this.) -/
def wbHit (pat : Str) (prevW : Bool) (s : Str) : Bool :=
  swCI pat s && !prevW && afterOk (List.drop pat.length s)

/-- Scan for `new RegExp("\\b" + pat + "\\b", "gi")` having a match,
threading whether the previous character was a word character. -/
def hasWBGo (pat : Str) (prevW : Bool) : Str → Bool
  | [] => false
  | c :: rest => wbHit pat prevW (c :: rest) || hasWBGo pat (isWordChar c) rest

/-- The text contains a case-insensitive whole-word occurrence of pat. -/
def hasWB (pat : Str) (s : Str) : Bool :=
  hasWBGo pat false s

/-- Global case-insensitive literal replacement
(`text.replace(/pat/gi, repl)`): scan left to right, replaced text is not
rescanned.  `skip` counts remaining characters of a match being consumed. -/
def rsGo (pat repl : Str) : Nat → Str → Str
  | _, [] => []
  | k + 1, _ :: rest => rsGo pat repl k rest
  | 0, c :: rest =>
    if swCI pat (c :: rest) then repl ++ rsGo pat repl (pat.length - 1) rest
    else c :: rsGo pat repl 0 rest

def replaceSub (pat repl s : Str) : Str := rsGo pat repl 0 s

/-- Global case-insensitive word-bounded replacement
(`text.replace(new RegExp("\\b" + pat + "\\b", "gi"), repl)`).
Subsequent `\b` checks look at the original characters, which is what
threading the word-character flag through skipped match characters
achieves. -/
def rwbGo (pat repl : Str) : Nat → Bool → Str → Str
  | _, _, [] => []
  | k + 1, _, c :: rest => rwbGo pat repl k (isWordChar c) rest
  | 0, prevW, c :: rest =>
    if wbHit pat prevW (c :: rest) then
      repl ++ rwbGo pat repl (pat.length - 1) (isWordChar c) rest
    else c :: rwbGo pat repl 0 (isWordChar c) rest

def replaceWB (pat repl s : Str) : Str := rwbGo pat repl 0 false s

/-- JS `String.split` on a regex that is a character class repeated
(`/[.!?]+/`, `/\s+/`): pieces between maximal delimiter runs, with an
empty piece at an end that starts or finishes with a run.  `mode = some
cur` is accumulating a piece, `mode = none` is inside a delimiter run. -/
def srGo (p : Char → Bool) (mode : Option Str) : Str → List Str
  | [] =>
    match mode with
    | some cur => [cur.reverse]
    | none => [[]]
  | c :: rest =>
    match mode with
    | some cur =>
      if p c then cur.reverse :: srGo p none rest else srGo p (some (c :: cur)) rest
    | none =>
      if p c then srGo p none rest else srGo p (some [c]) rest

def splitRuns (p : Char → Bool) (s : Str) : List Str := srGo p (some []) s

/-- JS `String.trim` (both ends, whitespace class). -/
def trimStr (s : Str) : Str :=
  (((s.dropWhile isSpaceJS).reverse).dropWhile isSpaceJS).reverse

/-- JS `Array.join(" ")`. -/
def joinSp (l : List Str) : Str := List.intercalate [' '] l

/-- JS `String.split(sep)` for a nonempty literal separator: leftmost
non-overlapping occurrences, case-sensitive. -/
def soGo (sep : Str) (cur : Str) : Nat → Str → List Str
  | _, [] => [cur.reverse]
  | k + 1, _ :: rest => soGo sep cur k rest
  | 0, c :: rest =>
    if swE sep (c :: rest) then cur.reverse :: soGo sep [] (sep.length - 1) rest
    else soGo sep (c :: cur) 0 rest

def splitOnStr (sep s : Str) : List Str := soGo sep [] 0 s

/-- Whitespace collapsing (`replace(/\s+/g, " ")`), threading whether the
previous character was part of a whitespace run. -/
def cwGo (prevWs : Bool) : Str → Str
  | [] => []
  | c :: rest =>
    if isSpaceJS c then
      if prevWs then cwGo true rest else ' ' :: cwGo true rest
    else c :: cwGo false rest

def collapseWs (s : Str) : Str := cwGo false s

/-- Flat map over sentences, mirroring the JS push-into-array loop. -/
def concatMapL (f : Str → List Str) : List Str → List Str
  | [] => []
  | x :: xs => f x ++ concatMapL f xs

/-- The legal jargon table of `simplifyLegalText.js`, in source order. -/
def legalTermsMap : List (Str × Str) :=
  [ ("heretofore".data, "before this".data)
  , ("hereinafter".data, "from now on".data)
  , ("whereas".data, "since".data)
  , ("hereby".data, "by this document".data)
  , ("therein".data, "in that".data)
  , ("thereof".data, "of that".data)
  , ("hereunder".data, "under this agreement".data)
  , ("notwithstanding".data, "despite".data)
  , ("aforementioned".data, "mentioned before".data)
  , ("subsequent".data, "later".data)
  , ("prior".data, "before".data)
  , ("pursuant to".data, "according to".data)
  , ("in lieu of".data, "instead of".data)
  , ("forthwith".data, "immediately".data)
  , ("ipso facto".data, "by the fact itself".data)
  , ("inter alia".data, "among other things".data)
  , ("vis-à-vis".data, "in relation to".data)
  , ("force majeure".data, "unforeseeable circumstances".data)
  , ("caveat emptor".data, "buyer beware".data)
  , ("quid pro quo".data, "something for something".data)
  , ("sine qua non".data, "essential requirement".data)
  , ("ad hoc".data, "for this specific purpose".data)
  , ("bona fide".data, "genuine".data)
  , ("pro rata".data, "proportionally".data)
  , ("status quo".data, "current situation".data)
  , ("cease and desist".data, "stop".data)
  , ("null and void".data, "cancelled".data)
  , ("in perpetuity".data, "forever".data)
  , ("indemnify".data, "protect from loss".data) ]

/-- The complex sentence pattern table, in source order.  Every pattern is
a case-insensitive literal. -/
def sentencePatterns : List (Str × Str) :=
  [ ("shall be deemed to be".data, "is considered".data)
  , ("in the event that".data, "if".data)
  , ("for the purpose of".data, "to".data)
  , ("with respect to".data, "about".data)
  , ("in accordance with".data, "following".data)
  , ("in connection with".data, "related to".data)
  , ("subject to the provisions of".data, "following the rules in".data)
  , ("without prejudice to".data, "without affecting".data) ]

/-- The terminology-replacement loop of `basicSimplification`. -/
def applyTerms (s : Str) : Str :=
  legalTermsMap.foldl (fun acc p => replaceWB p.1 p.2 acc) s

/-- The sentence-pattern loop of `basicSimplification`. -/
def applyPatterns (s : Str) : Str :=
  sentencePatterns.foldl (fun acc p => replaceSub p.1 p.2 acc) s

/-- The conjunction list of `breakDownLongSentences`, in source order. -/
def conjunctions : List Str :=
  [", and ".data, ", but ".data, ", or ".data,
   ", however ".data, ", therefore ".data, ", furthermore ".data]

/-- Per-sentence logic of `breakDownLongSentences` for a trimmed sentence
longer than 150 characters: split at the first listed conjunction present
(every occurrence of that one marker), or keep whole. -/
def breakOne (ts : Str) : List Str :=
  match conjunctions.find? (fun m => containsStr m ts) with
  | some m => (splitOnStr m ts).map (fun part => trimStr part ++ ['.'])
  | none => [ts ++ ['.']]

/-- `breakDownLongSentences`: split on `[.!?]+` runs, drop blank
sentences, break sentences over 150 characters at conjunctions, append
`.`, join with single spaces. -/
def breakDownLongSentences (t : Str) : Str :=
  joinSp (concatMapL
    (fun sen =>
      let ts := trimStr sen
      if ts = [] then []
      else if 150 < ts.length then breakOne ts
      else [ts ++ ['.']])
    (splitRuns isDelim t))

/-- The passive pattern `/shall be (\w+ed) by/gi` at the current position:
after a case-insensitive "shall be ", the maximal `\w` run must be at
least 3 long, end in "ed" (case-insensitively) and be followed by " by".
Backtracking cannot stop the capture mid-run because the character after
the group must be a space.  Returns the replacement text
(`will be $1 by`) and the match length. -/
def tryPassive (s : Str) : Option (Str × Nat) :=
  if swCI "shall be ".data s then
    let after := List.drop 9 s
    let run := after.takeWhile isWordChar
    if 3 ≤ run.length && swCI "ed".data (List.drop (run.length - 2) run)
        && swCI " by".data (List.drop run.length after) then
      some ("will be ".data ++ run ++ " by".data, 9 + run.length + 3)
    else none
  else none

/-- Global replacement for the passive pattern. -/
def p1Go : Nat → Str → Str
  | _, [] => []
  | k + 1, _ :: rest => p1Go k rest
  | 0, c :: rest =>
    match tryPassive (c :: rest) with
    | some (repl, mlen) => repl ++ p1Go (mlen - 1) rest
    | none => c :: p1Go 0 rest

/-- `improveReadability`: passive patterns in source order, then
`shall`→`will`, `may not`→`cannot`, whitespace collapse, trim. -/
def improveReadability (s : Str) : Str :=
  trimStr (collapseWs
    (replaceSub "may not".data "cannot".data
      (replaceSub "shall".data "will".data
        (replaceSub "are required to".data "must".data
          (replaceSub "is required to be".data "must be".data
            (p1Go 0 s))))))

/-- `basicSimplification`: terminology, sentence patterns, long-sentence
breakdown, readability pass. -/
def basicSimplification (t : Str) : Str :=
  improveReadability (breakDownLongSentences (applyPatterns (applyTerms t)))

/-- Rounding-half-up of `Math.round` on a rational. -/
def jsRound (q : ℚ) : Int := ⌊q + 1/2⌋

/-- `Math.round (a / b)` computed in integer arithmetic (for `0 < b`):
`floor (a / b + 1/2) = (2 a + b) div (2 b)` with floor division. -/
def jsRoundFrac (a : Int) (b : Nat) : Int := (2 * a + b) / (2 * (b : Int))

/-- Vowel class `[aeiouy]` of `countSyllables`. -/
def isVowelY (c : Char) : Bool :=
  c == 'a' || c == 'e' || c == 'i' || c == 'o' || c == 'u' || c == 'y'

/-- Complement class `[^laeiouy]` of the suffix-stripping regex. -/
def notLV (c : Char) : Bool := !(c == 'l' || isVowelY c)

/-- Suffix stripping `replace(/(?:[^laeiouy]es|ed|[^laeiouy]e)$/, "")`:
the three-character alternative starts leftmost, so it wins; the two
two-character alternatives are mutually exclusive. -/
def stripSuffixSyll (w : Str) : Str :=
  match w.reverse with
  | 's' :: 'e' :: x :: rest => if notLV x then rest.reverse else w
  | 'd' :: 'e' :: rest => rest.reverse
  | 'e' :: x :: rest => if notLV x then rest.reverse else w
  | _ => w

/-- Leading-y stripping `replace(/^y/, "")`. -/
def stripLeadY : Str → Str
  | 'y' :: r => r
  | s => s

/-- Number of matches of `/[aeiouy]{1,2}/g`: the greedy scan consumes up
to two vowels per match. -/
def gmGo : Str → Nat
  | [] => 0
  | [c] => if isVowelY c then 1 else 0
  | c :: d :: r =>
    if isVowelY c then
      if isVowelY d then 1 + gmGo r else 1 + gmGo (d :: r)
    else gmGo (d :: r)

/-- `countSyllables`: lower-case; 1 for length at most 3; else strip the
suffix pattern and a leading y and count `[aeiouy]{1,2}` matches, with a
floor of 1. -/
def countSyllables (w : Str) : Nat :=
  let lw := w.map foldChar
  if lw.length ≤ 3 then 1
  else
    let w2 := stripLeadY (stripSuffixSyll lw)
    let m := gmGo w2
    if m = 0 then 1 else m

/-- `calculateWordCountReduction`: word counts are the lengths of the raw
`split(/\s+/)` arrays (leading or trailing whitespace contributes an
empty token).  `split` never returns an empty array, so the divisor is
positive. -/
def calculateWordCountReduction (orig simp : Str) : Int :=
  let o := (splitRuns isSpaceJS orig).length
  let s := (splitRuns isSpaceJS simp).length
  jsRoundFrac (((o : Int) - (s : Int)) * 100) o

/-- Sentences counted by `calculateReadabilityScore`: split on `[.!?]+`
runs and keep segments that are nonempty after trimming. -/
def sentencesNB (t : Str) : List Str :=
  (splitRuns isDelim t).filter (fun s => trimStr s ≠ [])

/-- Words counted by `calculateReadabilityScore`: split on whitespace
runs and keep nonempty tokens. -/
def wordsNE (t : Str) : List Str :=
  (splitRuns isSpaceJS t).filter (fun w => w ≠ [])

/-- The Flesch Reading Ease value before rounding and clamping, as an
exact rational. -/
def fleschQ (t : Str) : ℚ :=
  let w : ℚ := ((wordsNE t).length : ℚ)
  let se : ℚ := ((sentencesNB t).length : ℚ)
  let sy : ℚ := (((wordsNE t).map countSyllables).sum : ℚ)
  206835/1000 - (1015/1000) * (w / se) - (846/10) * (sy / w)

/-- Numerator of the Flesch value over the common denominator
`1000 * sentences * words`. -/
def scoreNum (se w sy : Nat) : Int :=
  206835 * se * w - 1015 * w * w - 84600 * sy * se

/-- `calculateReadabilityScore`: 0 when there are no sentences or no
words, otherwise the rounded Flesch value clamped to [0, 100].  The
rounding is carried out in integer arithmetic; `calculateReadabilityScore_formula`
relates it to the rational formula `fleschQ`. -/
def calculateReadabilityScore (t : Str) : Int :=
  let se := (sentencesNB t).length
  let w := (wordsNE t).length
  let sy := ((wordsNE t).map countSyllables).sum
  if se = 0 ∨ w = 0 then 0
  else max 0 (min 100 (jsRoundFrac (scoreNum se w sy) (1000 * se * w)))

inductive Method
  | basic
  | ai
  | hybrid
deriving DecidableEq

inductive Provider
  | openai
  | huggingface
deriving DecidableEq

/-- The options object of `simplifyLegalText`. -/
structure Options where
  method : Method
  aiProvider : Provider
  preserveStructure : Bool
deriving DecidableEq

/-- The result object of a successful `simplifyLegalText` call. -/
structure SimplificationResult where
  originalText : Str
  simplifiedText : Str
  method : Method
  wordCountReduction : Int
  readabilityScore : Int
deriving DecidableEq

/-- Key configuration seen through `process.env`. -/
structure Env where
  openai : Bool
  hugging : Bool
deriving DecidableEq

deriving instance DecidableEq for Except

/-- Error message prefixes and the validation message, with the first
character exposed for disequality reasoning. -/
def aiFailPre : Str := 'A' :: "I simplification failed: ".data

def hfFailPre : Str := 'H' :: "ugging Face simplification failed: ".data

def topFailPre : Str := 'T' :: "ext simplification failed: ".data

def noTextMsg : Str := 'N' :: "o text provided for simplification".data

/-- `aiSimplification`: fails when no OpenAI key is configured, otherwise
returns the remote completion trimmed; every error is wrapped with the
"AI simplification failed: " text.  The network call is the `oai`
oracle. -/
def aiSimplification (env : Env) (oai : Str → Except Str Str) (text : Str) :
    Except Str Str :=
  if env.openai then
    match oai text with
    | .ok r => .ok (trimStr r)
    | .error m => .error (aiFailPre ++ m)
  else .error (aiFailPre ++ "OpenAI API key not configured".data)

/-- `huggingFaceSimplification`: like `aiSimplification` for the Hugging
Face oracle; the summary text is returned untrimmed. -/
def huggingFaceSimplification (env : Env) (hf : Str → Except Str Str) (text : Str) :
    Except Str Str :=
  if env.hugging then
    match hf text with
    | .ok r => .ok r
    | .error m => .error (hfFailPre ++ m)
  else .error (hfFailPre ++ "Hugging Face API key not configured".data)

/-- The method switch of `simplifyLegalText`, producing the simplified
text before post-processing.  In hybrid mode any remote error is caught
and the basic result is used. -/
def simplifiedCore (env : Env) (oai hf : Str → Except Str Str) (text : Str)
    (o : Options) : Except Str Str :=
  match o.method with
  | .basic => .ok (basicSimplification text)
  | .ai =>
    if o.aiProvider = .huggingface then huggingFaceSimplification env hf text
    else aiSimplification env oai text
  | .hybrid =>
    let b := basicSimplification text
    .ok (if env.openai then
          match aiSimplification env oai b with
          | .ok r => r
          | .error _ => b
        else if env.hugging then
          match huggingFaceSimplification env hf b with
          | .ok r => r
          | .error _ => b
        else b)

/-- `preserveDocumentStructure` is a documented no-op: it returns the
simplified text unchanged. -/
def preserveDocumentStructure (simplified _orig : Str) : Str := simplified

/-- `simplifyLegalText`: validation, the method switch, structure
post-processing, and the result object.  Errors are wrapped with the
"Text simplification failed: " text by the top-level catch. -/
def simplifyLegalText (env : Env) (oai hf : Str → Except Str Str) (text : Str)
    (o : Options) : Except Str SimplificationResult :=
  if trimStr text = [] then .error (topFailPre ++ noTextMsg)
  else
    match simplifiedCore env oai hf text o with
    | .error m => .error (topFailPre ++ m)
    | .ok s =>
      let s2 := if o.preserveStructure then preserveDocumentStructure s text else s
      .ok { originalText := text
          , simplifiedText := trimStr s2
          , method := o.method
          , wordCountReduction := calculateWordCountReduction text s2
          , readabilityScore := calculateReadabilityScore s2 }

/-- One output entry of `batchSimplifyTexts`. -/
structure BatchEntry where
  index : Nat
  success : Bool
  result : Option SimplificationResult
  error : Option Str
  originalText : Str
deriving DecidableEq

/-- The per-item body of the batch loop: a success entry spreads the
result, a failure entry captures the error message. -/
def mkBatchEntry (env : Env) (oai hf : Str → Except Str Str) (o : Options)
    (i : Nat) (t : Str) : BatchEntry :=
  match simplifyLegalText env oai hf t o with
  | .ok r =>
    { index := i, success := true, result := some r, error := none, originalText := t }
  | .error m =>
    { index := i, success := false, result := none, error := some m, originalText := t }

/-- The sequential batch loop. -/
def batchGo (env : Env) (oai hf : Str → Except Str Str) (o : Options) :
    Nat → List Str → List BatchEntry
  | _, [] => []
  | i, t :: ts => mkBatchEntry env oai hf o i t :: batchGo env oai hf o (i + 1) ts

/-- `batchSimplifyTexts`. -/
def batchSimplifyTexts (env : Env) (oai hf : Str → Except Str Str)
    (texts : List Str) (o : Options) : List BatchEntry :=
  batchGo env oai hf o 0 texts

/-- Length of the current maximal `[aeiouy]` run is threaded through the
scan; a finished run contributes its length. -/
def rlGo (cur : Nat) : Str → List Nat
  | [] => if cur = 0 then [] else [cur]
  | c :: rest =>
    if isVowelY c then rlGo (cur + 1) rest
    else if cur = 0 then rlGo 0 rest else cur :: rlGo 0 rest

/-- Lengths of the maximal vowel runs of a word. -/
def vowelRunLens (s : Str) : List Nat := rlGo 0 s

/-- Matches of `/[aeiouy]{1,2}/g` contributed by one maximal run of
length `L`: the greedy scan cuts it into `⌈L/2⌉` chunks. -/
def halfUp (L : Nat) : Nat := (L + 1) / 2

/-- Total `/[aeiouy]{1,2}/g` match count expressed through maximal runs. -/
def chunkSum (s : Str) : Nat := ((vowelRunLens s).map halfUp).sum

/-- Modelled from the spec: the claim reads `countSyllables` as returning
"the number of maximal runs of the vowels [aeiouy]" after the same
lower-casing, suffix stripping and leading-y stripping, with a minimum
of 1.  The code instead counts `[aeiouy]{1,2}` regex matches. -/
def countSyllablesRunsSpec (w : Str) : Nat :=
  let lw := w.map foldChar
  if lw.length ≤ 3 then 1
  else
    let w2 := stripLeadY (stripSuffixSyll lw)
    let m := (vowelRunLens w2).length
    if m = 0 then 1 else m

/-- Modelled from the spec: the claim counts sentences as the literally
non-empty segments after splitting on `[.!?]+` runs, where the code keeps
the segments that are non-blank after trimming. -/
def readabilityScoreLiteralSpec (t : Str) : Int :=
  let se := ((splitRuns isDelim t).filter (fun s => s ≠ [])).length
  let w := (wordsNE t).length
  let sy := ((wordsNE t).map countSyllables).sum
  if se = 0 ∨ w = 0 then 0
  else max 0 (min 100 (jsRoundFrac (scoreNum se w sy) (1000 * se * w)))

/-- Modelled from the spec: the claim computes the word-count reduction
from the numbers of whitespace-delimited non-empty tokens of the two
texts, where the code uses the raw `split(/\s+/)` array lengths. -/
def wordCountReductionSpec (orig simp : Str) : Int :=
  let o := ((splitRuns isSpaceJS orig).filter (fun w => w ≠ [])).length
  let s := ((splitRuns isSpaceJS simp).filter (fun w => w ≠ [])).length
  jsRoundFrac (((o : Int) - (s : Int)) * 100) o

/-- Key-less environment: no remote provider configured. -/
def env0 : Env := ⟨false, false⟩

/-- A remote oracle that always fails. -/
def oai0 : Str → Except Str Str := fun _ => .error "network unavailable".data

/-- A remote oracle that always fails. -/
def hf0 : Str → Except Str Str := fun _ => .error "network unavailable".data

def basicOpts : Options := ⟨.basic, .openai, true⟩

def hybridOpts : Options := ⟨.hybrid, .openai, true⟩

/-- Spec Example 1 input. -/
def ex1 : Str :=
  "The party shall, notwithstanding any prior agreement, heretofore comply.".data

/-- Input showing the basic pipeline re-creating a tracked term: the
sentence-pattern replacement of "for the purpose of" by "to" splices
"here" and "fore" into "heretofore". -/
def cex1 : Str := "heretofore x herefor the purpose offore y".data

/-- Counterexample text for claim C4: the segment between the two final
periods is the single space " ", which is non-empty as a string but
blank after trimming. -/
def cex4 : Str := "aaaa aaaa aaaa . .".data

/-- A 311-character sentence whose only listed conjunction is one
", and ". -/
def s300 : Str := List.replicate 155 'a' ++ ", and ".data ++ List.replicate 150 'b'

/-- Batch of three texts whose middle element is the empty string. -/
def texts3 : List Str := ["a b".data, [], "c".data]

/-- Input on which the basic pipeline is not idempotent even though all
sentences are short and no tracked term occurs: the pattern replacement
splices "heretofore" together, which the second run then substitutes. -/
def cex9 : Str := "a herefor the purpose offore b".data

theorem srGo_acc (p : Char → Bool) (s : Str) (h : s.all (fun c => !(p c)) = true) :
    ∀ cur : Str, srGo p (some cur) s = [cur.reverse ++ s] := by
  induction s with
  | nil => intro cur; simp [srGo]
  | cons c rest ih =>
    intro cur
    simp only [List.all_cons, Bool.and_eq_true, Bool.not_eq_true'] at h
    simp [srGo, h.1, ih h.2]

/-- A string with no delimiter characters splits into itself alone. -/
theorem splitRuns_of_no_delim (p : Char → Bool) (s : Str)
    (h : s.all (fun c => !(p c)) = true) : splitRuns p s = [s] := by
  simpa using srGo_acc p s h []

theorem srGo_ne_nil (p : Char → Bool) : ∀ (s : Str) (mode : Option Str),
    srGo p mode s ≠ [] := by
  intro s
  induction s with
  | nil => intro mode; cases mode <;> simp [srGo]
  | cons c rest ih =>
    intro mode
    cases mode with
    | some cur =>
      by_cases hc : p c
      · simp [srGo, hc]
      · simpa [srGo, hc] using ih (some (c :: cur))
    | none =>
      by_cases hc : p c
      · simpa [srGo, hc] using ih none
      · simpa [srGo, hc] using ih (some [c])

/-- JS `split` never returns an empty array. -/
theorem splitRuns_length_pos (p : Char → Bool) (s : Str) :
    0 < (splitRuns p s).length := by
  cases h : splitRuns p s with
  | nil => exact absurd h (srGo_ne_nil p s (some []))
  | cons a l => simp

theorem swCI_of_append (p q : Str) : ∀ s : Str, swCI (p ++ q) s = true → swCI p s = true := by
  induction p with
  | nil => intro s _; rfl
  | cons a ps ih =>
    intro s h
    cases s with
    | nil => simp [swCI] at h
    | cons c cs =>
      simp only [List.cons_append, swCI, Bool.and_eq_true] at h ⊢
      exact ⟨h.1, ih cs h.2⟩

theorem rsGo_noop (pat repl : Str) : ∀ s : Str, containsCI pat s = false →
    rsGo pat repl 0 s = s := by
  intro s
  induction s with
  | nil => intro _; rfl
  | cons c rest ih =>
    intro h
    simp only [containsCI, Bool.or_eq_false_iff] at h
    simp [rsGo, h.1, ih h.2]

theorem replaceSub_noop (pat repl s : Str) (h : containsCI pat s = false) :
    replaceSub pat repl s = s := rsGo_noop pat repl s h

theorem rwbGo_noop (pat repl : Str) : ∀ (s : Str) (prevW : Bool),
    hasWBGo pat prevW s = false → rwbGo pat repl 0 prevW s = s := by
  intro s
  induction s with
  | nil => intro _ _; rfl
  | cons c rest ih =>
    intro prevW h
    simp only [hasWBGo, Bool.or_eq_false_iff] at h
    simp [rwbGo, h.1, ih (isWordChar c) h.2]

theorem replaceWB_noop (pat repl s : Str) (h : hasWB pat s = false) :
    replaceWB pat repl s = s := rwbGo_noop pat repl s false h

theorem applyTerms_noop_aux (l : List (Str × Str)) : ∀ s : Str,
    (l.all fun p => !(hasWB p.1 s)) = true →
    l.foldl (fun acc p => replaceWB p.1 p.2 acc) s = s := by
  induction l with
  | nil => intro s _; rfl
  | cons p ps ih =>
    intro s h
    simp only [List.all_cons, Bool.and_eq_true, Bool.not_eq_true'] at h
    rw [List.foldl_cons, replaceWB_noop p.1 p.2 s h.1]
    exact ih s (by simpa using h.2)

/-- If the word-boundary scan finds no tracked term, the terminology pass
is the identity. -/
theorem applyTerms_noop (s : Str)
    (h : (legalTermsMap.all fun p => !(hasWB p.1 s)) = true) : applyTerms s = s :=
  applyTerms_noop_aux legalTermsMap s h

theorem applyPatterns_noop_aux (l : List (Str × Str)) : ∀ s : Str,
    (l.all fun p => !(containsCI p.1 s)) = true →
    l.foldl (fun acc p => replaceSub p.1 p.2 acc) s = s := by
  induction l with
  | nil => intro s _; rfl
  | cons p ps ih =>
    intro s h
    simp only [List.all_cons, Bool.and_eq_true, Bool.not_eq_true'] at h
    rw [List.foldl_cons, replaceSub_noop p.1 p.2 s h.1]
    exact ih s (by simpa using h.2)

/-- If no sentence-pattern phrase occurs, the pattern pass is the
identity. -/
theorem applyPatterns_noop (s : Str)
    (h : (sentencePatterns.all fun p => !(containsCI p.1 s)) = true) :
    applyPatterns s = s :=
  applyPatterns_noop_aux sentencePatterns s h

theorem p1Go_noop : ∀ s : Str, containsCI "shall".data s = false → p1Go 0 s = s := by
  intro s
  induction s with
  | nil => intro _; rfl
  | cons c rest ih =>
    intro h
    simp only [containsCI, Bool.or_eq_false_iff] at h
    have hsw : swCI "shall be ".data (c :: rest) = false := by
      cases hq : swCI "shall be ".data (c :: rest) with
      | false => rfl
      | true =>
        have : swCI "shall".data (c :: rest) = true := by
          have e : "shall be ".data = "shall".data ++ " be ".data := by decide
          exact swCI_of_append "shall".data " be ".data (c :: rest) (e ▸ hq)
        rw [this] at h
        exact absurd h.1 (by simp)
    simp [p1Go, tryPassive, hsw, ih h.2]

/-- Under the no-occurrence conditions and with whitespace already
collapsed and trimmed, the readability pass is the identity. -/
theorem improveReadability_noop (u : Str)
    (hshall : containsCI "shall".data u = false)
    (hisreq : containsCI "is required to be".data u = false)
    (hareq : containsCI "are required to".data u = false)
    (hmay : containsCI "may not".data u = false)
    (hcw : collapseWs u = u)
    (htr : trimStr u = u) :
    improveReadability u = u := by
  unfold improveReadability
  rw [p1Go_noop u hshall, replaceSub_noop _ _ u hisreq, replaceSub_noop _ _ u hareq,
    replaceSub_noop _ _ u hshall, replaceSub_noop _ _ u hmay, hcw, htr]

theorem concatMapL_short (l : List Str)
    (h : ∀ x ∈ l, (trimStr x).length ≤ 150) :
    concatMapL
      (fun sen =>
        let ts := trimStr sen
        if ts = [] then []
        else if 150 < ts.length then breakOne ts
        else [ts ++ ['.']])
      l = ((l.map trimStr).filter (fun ts => ts ≠ [])).map (fun ts => ts ++ ['.']) := by
  induction l with
  | nil => rfl
  | cons x xs ih =>
    have hx := h x (by simp)
    have hxs := ih fun y hy => h y (by simp [hy])
    by_cases he : trimStr x = []
    · simp [concatMapL, he, hxs]
    · have : ¬ 150 < (trimStr x).length := by omega
      simp [concatMapL, he, this, hxs]

/-- A text whose sentences are all at most 150 characters long after
trimming passes through the segmenter as the `". "`-joined list of its
non-blank trimmed sentences. -/
theorem breakDownLongSentences_short (u : Str)
    (h : (((splitRuns isDelim u).map trimStr).all fun ts => ts.length ≤ 150) = true) :
    breakDownLongSentences u =
      joinSp ((((splitRuns isDelim u).map trimStr).filter
        (fun ts => ts ≠ [])).map (fun ts => ts ++ ['.'])) := by
  unfold breakDownLongSentences
  rw [concatMapL_short]
  intro x hx
  have hx2 : trimStr x ∈ (splitRuns isDelim u).map trimStr := List.mem_map_of_mem _ hx
  simpa using List.all_eq_true.mp h _ hx2

theorem rlGo_shift (r : Str) : ∀ k : Nat,
    ((rlGo (k + 2) r).map halfUp).sum = 1 + ((rlGo k r).map halfUp).sum := by
  induction r with
  | nil =>
    intro k
    cases k with
    | zero => simp [rlGo, halfUp]
    | succ j => simp [rlGo, halfUp]; omega
  | cons c rest ih =>
    intro k
    by_cases hv : isVowelY c = true
    · simpa [rlGo, hv] using ih (k + 1)
    · cases k with
      | zero => simp [rlGo, hv, halfUp]
      | succ j => simp [rlGo, hv, halfUp]; omega

theorem gmGo_eq_chunkSum_aux : ∀ (n : Nat) (s : Str), s.length ≤ n →
    gmGo s = chunkSum s := by
  intro n
  induction n with
  | zero =>
    intro s h
    have : s = [] := List.eq_nil_of_length_eq_zero (Nat.le_zero.mp h)
    subst this
    rfl
  | succ n ih =>
    intro s h
    cases s with
    | nil => rfl
    | cons c s1 =>
      cases s1 with
      | nil =>
        by_cases hv : isVowelY c = true <;>
          simp [gmGo, chunkSum, vowelRunLens, rlGo, hv, halfUp]
      | cons d r =>
        have hr : r.length ≤ n := by simp at h; omega
        have hdr : (d :: r).length ≤ n := by simp at h ⊢; omega
        by_cases hc : isVowelY c = true
        · by_cases hd : isVowelY d = true
          · simp only [gmGo, hc, hd, if_true, ih r hr, chunkSum, vowelRunLens, rlGo]
            have := rlGo_shift r 0
            norm_num at this ⊢
            omega
          · simp only [gmGo, hc, hd, if_true, if_false, ih (d :: r) hdr,
              chunkSum, vowelRunLens, rlGo]
            simp [rlGo, hd, halfUp]
        · simp [gmGo, hc, ih (d :: r) hdr, chunkSum, vowelRunLens, rlGo]

/-- The greedy `[aeiouy]{1,2}` match count of a word equals the sum over
its maximal vowel runs of half the run length rounded up. -/
theorem gmGo_eq_chunkSum (s : Str) : gmGo s = chunkSum s :=
  gmGo_eq_chunkSum_aux s.length s (Nat.le_refl _)

/-- Integer rounding computes `Math.round` of the exact fraction. -/
theorem jsRoundFrac_eq_jsRound (a : Int) (b : Nat) (hb : 0 < b) :
    jsRoundFrac a b = jsRound ((a : ℚ) / (b : ℚ)) := by
  unfold jsRoundFrac jsRound
  have hbQ : ((b : ℚ)) ≠ 0 := Nat.cast_ne_zero.mpr hb.ne'
  have he : (a : ℚ) / (b : ℚ) + 1/2 = ((2 * a + b : ℤ) : ℚ) / ((2 * b : ℕ) : ℚ) := by
    push_cast
    field_simp
    ring
  rw [he, Rat.floor_intCast_div_natCast]
  push_cast
  ring_nf

theorem scoreNum_div (s1 w1 y1 : Nat) (hs : s1 ≠ 0) (hw : w1 ≠ 0) :
    ((scoreNum s1 w1 y1 : ℤ) : ℚ) / ((1000 * s1 * w1 : ℕ) : ℚ) =
      206835/1000 - (1015/1000) * ((w1 : ℚ) / (s1 : ℚ)) -
        (846/10) * ((y1 : ℚ) / (w1 : ℚ)) := by
  have hsQ : ((s1 : ℚ)) ≠ 0 := Nat.cast_ne_zero.mpr hs
  have hwQ : ((w1 : ℚ)) ≠ 0 := Nat.cast_ne_zero.mpr hw
  unfold scoreNum
  push_cast
  field_simp
  ring

/-- With at least one sentence and one word, the readability score is the
rounded and clamped exact Flesch value. -/
theorem calculateReadabilityScore_formula (t : Str)
    (hse : (sentencesNB t).length ≠ 0) (hw : (wordsNE t).length ≠ 0) :
    calculateReadabilityScore t = max 0 (min 100 (jsRound (fleschQ t))) := by
  unfold calculateReadabilityScore
  rw [if_neg (by push_neg; exact ⟨hse, hw⟩)]
  have hb : 0 < 1000 * (sentencesNB t).length * (wordsNE t).length :=
    Nat.mul_pos (Nat.mul_pos (by norm_num) (Nat.pos_of_ne_zero hse)) (Nat.pos_of_ne_zero hw)
  rw [jsRoundFrac_eq_jsRound _ _ hb,
    scoreNum_div _ _ (((wordsNE t).map countSyllables).sum) hse hw]
  rfl

/-- The word-count reduction is `Math.round` of the exact percentage
computed from the raw `split(/\s+/)` array lengths. -/
theorem calculateWordCountReduction_formula (orig simpd : Str) :
    calculateWordCountReduction orig simpd =
      jsRound (((((splitRuns isSpaceJS orig).length : ℚ) -
        ((splitRuns isSpaceJS simpd).length : ℚ)) /
        ((splitRuns isSpaceJS orig).length : ℚ)) * 100) := by
  unfold calculateWordCountReduction
  have hb := splitRuns_length_pos isSpaceJS orig
  rw [jsRoundFrac_eq_jsRound _ _ hb]
  have hbQ : (((splitRuns isSpaceJS orig).length : ℚ)) ≠ 0 :=
    Nat.cast_ne_zero.mpr hb.ne'
  congr 1
  push_cast
  field_simp

theorem aiFail_ne_noText (m1 : Str) : aiFailPre ++ m1 ≠ noTextMsg := by
  intro h
  unfold aiFailPre noTextMsg at h
  rw [List.cons_append] at h
  injection h with h1 _
  exact absurd h1 (by decide)

theorem hfFail_ne_noText (m1 : Str) : hfFailPre ++ m1 ≠ noTextMsg := by
  intro h
  unfold hfFailPre noTextMsg at h
  rw [List.cons_append] at h
  injection h with h1 _
  exact absurd h1 (by decide)

/-- The method switch can only fail in `ai` mode, and then with a
provider-wrapped message. -/
theorem simplifiedCore_error_shape (env : Env) (oai hf : Str → Except Str Str)
    (text : Str) (o : Options) (m : Str)
    (h : simplifiedCore env oai hf text o = .error m) :
    (∃ m1, m = aiFailPre ++ m1) ∨ (∃ m1, m = hfFailPre ++ m1) := by
  rcases o with ⟨method, provider, ps⟩
  cases method with
  | basic => simp [simplifiedCore] at h
  | hybrid => simp [simplifiedCore] at h
  | ai =>
    simp only [simplifiedCore] at h
    by_cases hp : provider = Provider.huggingface
    · rw [if_pos hp] at h
      unfold huggingFaceSimplification at h
      by_cases hk : env.hugging = true
      · rw [if_pos hk] at h
        cases hr : hf text with
        | ok r => rw [hr] at h; exact absurd h (by simp)
        | error m1 => rw [hr] at h; injection h with h2; exact Or.inr ⟨m1, h2.symm⟩
      · rw [if_neg hk] at h
        injection h with h2
        exact Or.inr ⟨_, h2.symm⟩
    · rw [if_neg hp] at h
      unfold aiSimplification at h
      by_cases hk : env.openai = true
      · rw [if_pos hk] at h
        cases hr : oai text with
        | ok r => rw [hr] at h; exact absurd h (by simp)
        | error m1 => rw [hr] at h; injection h with h2; exact Or.inl ⟨m1, h2.symm⟩
      · rw [if_neg hk] at h
        injection h with h2
        exact Or.inl ⟨_, h2.symm⟩

/-- Claim C1, counterexample: "heretofore" is a tracked term, the input
contains it as a standalone word, yet the output of `basicSimplification`
again contains "heretofore" as a standalone word, because the
sentence-pattern stage can splice a tracked term together after the
terminology stage has run. -/
theorem claim_C1_cex :
    ("heretofore".data, "before this".data) ∈ legalTermsMap
    ∧ hasWB "heretofore".data cex1 = true
    ∧ basicSimplification cex1 = "before this x heretofore y.".data
    ∧ hasWB "heretofore".data (basicSimplification cex1) = true := by
  refine ⟨by decide, by decide, by decide, by decide⟩

/-- Claim C1 (amended): the terminology stage replaces word-boundary
occurrences, but later pipeline stages can re-create a tracked term, so
the universal absence guarantee fails; it does hold on spec Example 1,
whose basic output contains "will", "despite" and "before this" and
contains none of "shall", "notwithstanding", "heretofore" as whole
words. -/
theorem claim_C1 :
    basicSimplification ex1 =
      "The party will, despite any before agreement, before this comply.".data
    ∧ hasWB "shall".data (basicSimplification ex1) = false
    ∧ hasWB "notwithstanding".data (basicSimplification ex1) = false
    ∧ hasWB "heretofore".data (basicSimplification ex1) = false
    ∧ containsStr "will".data (basicSimplification ex1) = true
    ∧ containsStr "despite".data (basicSimplification ex1) = true
    ∧ containsStr "before this".data (basicSimplification ex1) = true := by
  refine ⟨by decide, by decide, by decide, by decide, by decide, by decide, by decide⟩

/-- Claim C10: the modal replacement `shall`→`will` is substring-level:
"marshall" contains "shall" only as a proper substring (not as a
standalone word) and is still rewritten to "marwill."; by contrast the
terminology substitution is word-bounded and leaves "heretofore" inside
"xheretoforey" untouched. -/
theorem claim_C10 :
    containsStr "shall".data "marshall".data = true
    ∧ hasWB "shall".data "marshall".data = false
    ∧ basicSimplification "marshall".data = "marwill.".data
    ∧ containsStr "heretofore".data "xheretoforey".data = true
    ∧ hasWB "heretofore".data "xheretoforey".data = false
    ∧ basicSimplification "xheretoforey".data = "xheretoforey.".data := by
  refine ⟨by decide, by decide, by decide, by decide, by decide, by decide⟩

/-- Claim C5, counterexample: on the word "aaaa" the code counts 2
(greedy `[aeiouy]{1,2}` matches) while the claim's "number of maximal
vowel runs" reading gives 1. -/
theorem claim_C5_cex :
    countSyllables "aaaa".data = 2
    ∧ countSyllablesRunsSpec "aaaa".data = 1
    ∧ countSyllables "aaaa".data ≠ countSyllablesRunsSpec "aaaa".data := by
  refine ⟨by decide, by decide, by decide⟩

/-- Claim C5 (amended): `countSyllables` lower-cases the word, returns 1
for length at most 3, and otherwise strips the suffix pattern and a
leading y and counts greedy one-or-two-vowel chunks — each maximal
`[aeiouy]` run of length L contributes ⌈L/2⌉ matches, not 1 — with a
minimum of 1; `countSyllables "cat" = 1` and
`countSyllables "beautiful" ≥ 2`. -/
theorem claim_C5 (w : Str) :
    countSyllables w =
      (if (w.map foldChar).length ≤ 3 then 1
       else max 1 (chunkSum (stripLeadY (stripSuffixSyll (w.map foldChar)))))
    ∧ countSyllables "cat".data = 1
    ∧ 2 ≤ countSyllables "beautiful".data := by
  refine ⟨?_, by decide, by decide⟩
  unfold countSyllables
  simp only [List.length_map]
  by_cases hl : w.length ≤ 3
  · simp [hl]
  · simp only [hl, if_false]
    rw [gmGo_eq_chunkSum]
    split
    · next h => rw [h]; simp
    · next h => exact (Nat.max_eq_right (Nat.one_le_iff_ne_zero.mpr h)).symm

/-- Claim C4, counterexample: the code counts sentences as segments that
are non-blank after trimming, not literally non-empty segments; on this
input the code returns 66 while the claim's formula gives 69. -/
theorem claim_C4_cex :
    calculateReadabilityScore cex4 = 66
    ∧ readabilityScoreLiteralSpec cex4 = 69
    ∧ calculateReadabilityScore cex4 ≠ readabilityScoreLiteralSpec cex4 := by
  refine ⟨by decide, by decide, by decide⟩

/-- Claim C4 (amended): with sentences counted as the segments that are
non-blank after trimming (not literally non-empty segments),
`calculateReadabilityScore` returns 0 when the sentence or word count is
zero, otherwise the rounded Flesch value clamped to [0, 100]; the result
is always an integer in [0, 100]. -/
theorem claim_C4 (t : Str) :
    ((sentencesNB t).length = 0 ∨ (wordsNE t).length = 0 →
      calculateReadabilityScore t = 0)
    ∧ ((sentencesNB t).length ≠ 0 → (wordsNE t).length ≠ 0 →
      calculateReadabilityScore t = max 0 (min 100 (jsRound (fleschQ t))))
    ∧ 0 ≤ calculateReadabilityScore t ∧ calculateReadabilityScore t ≤ 100 := by
  refine ⟨?_, ?_, ?_, ?_⟩
  · intro h
    rcases h with h | h <;> simp [calculateReadabilityScore, h]
  · intro h1 h2
    exact calculateReadabilityScore_formula t h1 h2
  · simp only [calculateReadabilityScore]
    split
    · norm_num
    · exact le_max_left 0 _
  · simp only [calculateReadabilityScore]
    split
    · norm_num
    · exact max_le (by norm_num) (min_le_left _ _)

/-- Witness for claim C4 at concrete inputs: the empty text scores 0 and
a short ordinary text takes the clamped-formula branch. -/
theorem claim_C4_witness :
    calculateReadabilityScore [] = 0
    ∧ calculateReadabilityScore "Hi there.".data =
        max 0 (min 100 (jsRound (fleschQ "Hi there.".data))) :=
  ⟨(claim_C4 []).1 (Or.inl (by decide)),
   (claim_C4 "Hi there.".data).2.1 (by decide) (by decide)⟩

theorem joinSp_single (x : Str) : joinSp [x] = x := by
  simp [joinSp, List.intercalate]

/-- Claim C3: a non-blank single sentence longer than 150 characters is
split at the first conjunction of the fixed list that occurs in it (in
list order, at every occurrence of that one marker, each fragment getting
a period), and is kept whole with a period when no listed conjunction
occurs. -/
theorem claim_C3 (s : Str) (hnd : (s.all fun c => !(isDelim c)) = true)
    (hne : trimStr s ≠ []) (hlen : 150 < (trimStr s).length) :
    breakDownLongSentences s =
      (match conjunctions.find? (fun m => containsStr m (trimStr s)) with
       | some m =>
         joinSp ((splitOnStr m (trimStr s)).map (fun part => trimStr part ++ ['.']))
       | none => trimStr s ++ ['.']) := by
  unfold breakDownLongSentences
  rw [splitRuns_of_no_delim isDelim s hnd]
  simp only [concatMapL, List.append_nil]
  rw [if_neg hne, if_pos hlen]
  unfold breakOne
  cases hfind : conjunctions.find? (fun m => containsStr m (trimStr s)) with
  | some m => rfl
  | none => exact joinSp_single _

/-- Witness for claim C3: the long concrete sentence is split at its
single ", and " into exactly two output sentences. -/
theorem claim_C3_witness :
    breakDownLongSentences s300 =
      List.replicate 155 'a' ++ '.' :: ' ' :: List.replicate 150 'b' ++ ['.']
    ∧ (((splitRuns isDelim (breakDownLongSentences s300)).map trimStr).filter
        (fun ts => ts ≠ [])).length = 2 := by
  have h := claim_C3 s300 (by decide) (by decide) (by decide)
  constructor
  · rw [h]; decide
  · rw [h]; decide

/-- Claim C2: in hybrid mode, for valid text, when no provider key is
configured or the attempted remote call fails, `simplifyLegalText`
resolves successfully and the simplified text is the trimmed output of
the basic pipeline; the remote failure is never surfaced. -/
theorem claim_C2 (env : Env) (oai hf : Str → Except Str Str) (text : Str)
    (o : Options) (hm : o.method = .hybrid) (ht : trimStr text ≠ [])
    (hfail :
      (env.openai = false ∧ env.hugging = false)
      ∨ (env.openai = true ∧ ∃ m, oai (basicSimplification text) = .error m)
      ∨ (env.openai = false ∧ env.hugging = true ∧
          ∃ m, hf (basicSimplification text) = .error m)) :
    ∃ r, simplifyLegalText env oai hf text o = .ok r
      ∧ r.simplifiedText = trimStr (basicSimplification text) := by
  unfold simplifyLegalText
  rw [if_neg ht]
  have hcore : simplifiedCore env oai hf text o = .ok (basicSimplification text) := by
    unfold simplifiedCore
    rw [hm]
    set b := basicSimplification text with hb
    rcases hfail with ⟨h1, h2⟩ | ⟨h1, m, h2⟩ | ⟨h1, h2, m, h3⟩
    · simp [h1, h2]
    · simp [h1, aiSimplification, h2]
    · simp [h1, h2, huggingFaceSimplification, h3]
  rw [hcore]
  set b := basicSimplification text with hb
  refine ⟨_, rfl, ?_⟩
  show trimStr (if o.preserveStructure then preserveDocumentStructure b text else b) =
    trimStr b
  rw [preserveDocumentStructure, ite_self]

/-- Witness for claim C2: key-less environment, failing oracles, a plain
word. -/
theorem claim_C2_witness :
    ∃ r, simplifyLegalText env0 oai0 hf0 "hello".data hybridOpts = .ok r
      ∧ r.simplifiedText = trimStr (basicSimplification "hello".data) :=
  claim_C2 env0 oai0 hf0 "hello".data hybridOpts rfl (by decide) (Or.inl ⟨rfl, rfl⟩)

/-- Claim C6, counterexample: the message surfaced for blank input is the
wrapped "Text simplification failed: No text provided for
simplification", not the claim's "No text provided". -/
theorem claim_C6_cex :
    simplifyLegalText env0 oai0 hf0 [] hybridOpts = .error (topFailPre ++ noTextMsg)
    ∧ topFailPre ++ noTextMsg ≠ "No text provided".data := by
  refine ⟨by decide, by decide⟩

/-- Claim C6 (amended): for blank text, every call fails immediately with
the message "Text simplification failed: No text provided for
simplification" (the validation text wrapped by the top-level catch), and
for non-blank text this validation failure can never be the outcome. -/
theorem claim_C6 (env : Env) (oai hf : Str → Except Str Str) (text : Str)
    (o : Options) :
    (trimStr text = [] →
      simplifyLegalText env oai hf text o = .error (topFailPre ++ noTextMsg))
    ∧ (trimStr text ≠ [] →
      simplifyLegalText env oai hf text o ≠ .error (topFailPre ++ noTextMsg)) := by
  constructor
  · intro h
    unfold simplifyLegalText
    rw [if_pos h]
  · intro h
    unfold simplifyLegalText
    rw [if_neg h]
    cases hc : simplifiedCore env oai hf text o with
    | ok s => simp
    | error m =>
      intro heq
      injection heq with h2
      have hm : m = noTextMsg := List.append_cancel_left h2
      rcases simplifiedCore_error_shape env oai hf text o m hc with ⟨m1, rfl⟩ | ⟨m1, rfl⟩
      · exact aiFail_ne_noText m1 hm
      · exact hfFail_ne_noText m1 hm

/-- Witness for claim C6: a whitespace-only text fails with the
validation message, a non-blank text does not. -/
theorem claim_C6_witness :
    simplifyLegalText env0 oai0 hf0 " ".data hybridOpts = .error (topFailPre ++ noTextMsg)
    ∧ simplifyLegalText env0 oai0 hf0 "hi".data hybridOpts ≠
        .error (topFailPre ++ noTextMsg) :=
  ⟨(claim_C6 env0 oai0 hf0 " ".data hybridOpts).1 (by decide),
   (claim_C6 env0 oai0 hf0 "hi".data hybridOpts).2 (by decide)⟩

/-- Claim C7, counterexample: on input " a" (leading space) the code
counts the empty leading token, reporting a 50 percent reduction, while
the claim's non-empty-token formula gives 0. -/
theorem claim_C7_cex :
    simplifyLegalText env0 oai0 hf0 " a".data basicOpts =
      .ok ⟨" a".data, "a.".data, .basic, 50, 100⟩
    ∧ wordCountReductionSpec " a".data "a.".data = 0
    ∧ (50 : Int) ≠ 0 := by
  refine ⟨by decide, by decide, by decide⟩

/-- Claim C7 (amended): for every successful call, `wordCountReduction`
is the rounded percentage computed from the raw `split(/\s+/)` array
lengths of the original text and of the method's simplified text — these
lengths count an empty token for leading or trailing whitespace, unlike
the claim's non-empty-token counts; the value may be negative. -/
theorem claim_C7 (env : Env) (oai hf : Str → Except Str Str) (text : Str)
    (o : Options) (s : Str) (ht : trimStr text ≠ [])
    (hc : simplifiedCore env oai hf text o = .ok s) :
    ∃ r, simplifyLegalText env oai hf text o = .ok r
      ∧ r.wordCountReduction =
          jsRound (((((splitRuns isSpaceJS text).length : ℚ) -
            ((splitRuns isSpaceJS s).length : ℚ)) /
            ((splitRuns isSpaceJS text).length : ℚ)) * 100) := by
  unfold simplifyLegalText
  rw [if_neg ht, hc]
  refine ⟨_, rfl, ?_⟩
  have hs2 : (if o.preserveStructure then preserveDocumentStructure s text else s) = s := by
    simp [preserveDocumentStructure]
  simp only [hs2]
  exact calculateWordCountReduction_formula text s

/-- Witness for claim C7 at a concrete basic-mode call. -/
theorem claim_C7_witness :
    ∃ r, simplifyLegalText env0 oai0 hf0 "a b".data basicOpts = .ok r
      ∧ r.wordCountReduction =
          jsRound (((((splitRuns isSpaceJS "a b".data).length : ℚ) -
            ((splitRuns isSpaceJS "a b.".data).length : ℚ)) /
            ((splitRuns isSpaceJS "a b".data).length : ℚ)) * 100) :=
  claim_C7 env0 oai0 hf0 "a b".data basicOpts "a b.".data (by decide) (by decide)

theorem batchGo_length (env : Env) (oai hf : Str → Except Str Str) (o : Options) :
    ∀ (ts : List Str) (k : Nat), (batchGo env oai hf o k ts).length = ts.length := by
  intro ts
  induction ts with
  | nil => intro k; rfl
  | cons t ts ih => intro k; simp [batchGo, ih]

theorem batchGo_get (env : Env) (oai hf : Str → Except Str Str) (o : Options) :
    ∀ (ts : List Str) (i k : Nat) (t : Str), ts.get? i = some t →
    (batchGo env oai hf o k ts).get? i = some (mkBatchEntry env oai hf o (k + i) t) := by
  intro ts
  induction ts with
  | nil => intro i k t h; simp at h
  | cons x xs ih =>
    intro i k t h
    cases i with
    | zero =>
      simp only [List.get?] at h
      injection h with h
      subst h
      simp [batchGo]
    | succ j =>
      simp only [List.get?] at h
      simp only [batchGo, List.get?]
      rw [ih j (k + 1) t h]
      congr 2
      omega

/-- Claim C8: the batch result has one entry per input in order, the
entry at position i carries index i and the item's text, and it records
success with the result exactly when `simplifyLegalText` succeeded and
failure with the captured message exactly when it failed — so one item's
failure never prevents the remaining items from being processed. -/
theorem claim_C8 (env : Env) (oai hf : Str → Except Str Str) (texts : List Str)
    (o : Options) :
    (batchSimplifyTexts env oai hf texts o).length = texts.length
    ∧ ∀ i t, texts.get? i = some t →
        ∃ e, (batchSimplifyTexts env oai hf texts o).get? i = some e
          ∧ e.index = i ∧ e.originalText = t
          ∧ ((∃ r, simplifyLegalText env oai hf t o = .ok r
               ∧ e.success = true ∧ e.result = some r ∧ e.error = none)
           ∨ (∃ m, simplifyLegalText env oai hf t o = .error m
               ∧ e.success = false ∧ e.result = none ∧ e.error = some m)) := by
  constructor
  · exact batchGo_length env oai hf o texts 0
  · intro i t h
    refine ⟨mkBatchEntry env oai hf o i t, ?_, ?_, ?_, ?_⟩
    · simpa using batchGo_get env oai hf o texts i 0 t h
    · cases hr : simplifyLegalText env oai hf t o <;> simp [mkBatchEntry, hr]
    · cases hr : simplifyLegalText env oai hf t o <;> simp [mkBatchEntry, hr]
    · cases hr : simplifyLegalText env oai hf t o with
      | ok r => exact Or.inl ⟨r, rfl, by simp [mkBatchEntry, hr]⟩
      | error m => exact Or.inr ⟨m, rfl, by simp [mkBatchEntry, hr]⟩

/-- Witness for claim C8: in the three-element batch with an empty middle
item, all three entries exist, the middle one is the captured failure,
and the success flags are true, false, true. -/
theorem claim_C8_witness :
    (batchSimplifyTexts env0 oai0 hf0 texts3 hybridOpts).length = 3
    ∧ (∃ e, (batchSimplifyTexts env0 oai0 hf0 texts3 hybridOpts).get? 1 = some e
        ∧ e.index = 1 ∧ e.originalText = []
        ∧ ((∃ r, simplifyLegalText env0 oai0 hf0 [] hybridOpts = .ok r
             ∧ e.success = true ∧ e.result = some r ∧ e.error = none)
         ∨ (∃ m, simplifyLegalText env0 oai0 hf0 [] hybridOpts = .error m
             ∧ e.success = false ∧ e.result = none ∧ e.error = some m)))
    ∧ (batchSimplifyTexts env0 oai0 hf0 texts3 hybridOpts).map (fun e => e.success) =
        [true, false, true] := by
  refine ⟨?_, ?_, by decide⟩
  · exact ((claim_C8 env0 oai0 hf0 texts3 hybridOpts).1).trans (by decide)
  · exact (claim_C8 env0 oai0 hf0 texts3 hybridOpts).2 1 [] (by decide)

/-- Claim C9, counterexample: all sentences of the input are at most 150
characters after trimming and no tracked legal term occurs as a
standalone word, yet applying `basicSimplification` twice differs from
applying it once. -/
theorem claim_C9_cex :
    ((((splitRuns isDelim cex9).map trimStr).all fun ts => ts.length ≤ 150) = true)
    ∧ ((legalTermsMap.all fun p => !(hasWB p.1 cex9)) = true)
    ∧ basicSimplification (basicSimplification cex9) ≠ basicSimplification cex9 := by
  refine ⟨by decide, by decide, by decide⟩

/-- Claim C9 (amended): a second `basicSimplification` run changes
nothing when the first run's output is in simplified normal form — it
contains no tracked term as a standalone word, no sentence-pattern
phrase, no "shall", "is required to", "are required to" or "may not"
occurrence, its sentences are at most 150 characters and joined as
trimmed sentences each ending in a period, and its whitespace is already
collapsed and trimmed.  The extra conditions beyond the original claim
are required because pattern replacement and whitespace collapsing can
re-create rule targets, as the counterexample shows. -/
theorem claim_C9 (t : Str)
    (h1 : (legalTermsMap.all fun p => !(hasWB p.1 (basicSimplification t))) = true)
    (h2 : (sentencePatterns.all fun p => !(containsCI p.1 (basicSimplification t))) = true)
    (h3 : containsCI "shall".data (basicSimplification t) = false)
    (h4 : containsCI "is required to be".data (basicSimplification t) = false)
    (h5 : containsCI "are required to".data (basicSimplification t) = false)
    (h6 : containsCI "may not".data (basicSimplification t) = false)
    (h7 : (((splitRuns isDelim (basicSimplification t)).map trimStr).all
        fun ts => ts.length ≤ 150) = true)
    (h8 : basicSimplification t =
        joinSp ((((splitRuns isDelim (basicSimplification t)).map trimStr).filter
          (fun ts => ts ≠ [])).map (fun ts => ts ++ ['.'])))
    (h9 : collapseWs (basicSimplification t) = basicSimplification t)
    (h10 : trimStr (basicSimplification t) = basicSimplification t) :
    basicSimplification (basicSimplification t) = basicSimplification t := by
  conv_lhs => rw [basicSimplification]
  rw [applyTerms_noop _ h1, applyPatterns_noop _ h2,
    breakDownLongSentences_short _ h7, ← h8,
    improveReadability_noop _ h3 h4 h5 h6 h9 h10]

/-- Witness for claim C9: a short ordinary text already in normal form
after one pass. -/
theorem claim_C9_witness :
    basicSimplification (basicSimplification "Hello there.".data) =
      basicSimplification "Hello there.".data :=
  claim_C9 "Hello there.".data (by decide) (by decide) (by decide) (by decide)
    (by decide) (by decide) (by decide) (by decide) (by decide) (by decide)
